import Mathlib

/-!
Shallow embedding of `storage-proofs-porep/src/stacked/vanilla/cores.rs`.

The Rust module partitions the machine's detected cores into fixed-size
groups (`core_groups`), offers a non-blocking checkout of one group
(`checkout_core_group`, a `try_lock` scan over per-group mutexes), and
binds the calling thread to one hardware core (`bind_core`), returning a
`Cleanup` guard whose `Drop` restores the captured prior CPU binding.

Modelling choices:
- An hwloc `Bitmap` is a list of logical-processor indices; `singlify`
  keeps the first one, as hwloc's `singlify` keeps a single set bit.
- The hardware description seen through the topology lock is
  `Option (List (Option Bitmap))`: `none` when `objects_with_type` fails,
  otherwise one `Option Bitmap` (the `allowed_cpuset`) per detected core.
- The calling thread's kernel-side affinity is a `ThreadState`
  (current CPU-binding mask as reported by `get_cpubind_for_thread`, and
  current memory binding as a mask/policy pair).
- Fallible platform calls (`set_cpubind_for_thread`, `set_membind`) are
  driven by explicit failure flags: a failing call leaves the thread
  state unchanged, a successful one updates it.
- A poisoned topology mutex is an explicit boolean; the Rust code calls
  `.expect(..)` on the lock result, which panics, modelled as a `fatal`
  outcome distinct from an ordinary `Err` return.
-/

/-- An hwloc bitmap: the set of logical-processor indices it contains. -/
abbrev Bitmap := List Nat

/-- `Bitmap::singlify`: reduce the mask to a single logical processor. -/
def singlify (b : Bitmap) : Bitmap := b.take 1

/-- hwloc memory-binding policies used by the module:
`MEMBIND_DEFAULT` (used on restore) and `MEMBIND_BIND` (used on bind). -/
inductive MemBindPolicy where
  | default
  | bind
deriving DecidableEq, Repr

/-- `CoreIndex` wrapper from the source (`struct CoreIndex(usize)`). -/
structure CoreIndex where
  val : Nat
deriving DecidableEq, Repr

/-- The calling thread's kernel-visible binding state: the CPU-binding
mask `get_cpubind_for_thread` would report (`none` when the platform
cannot report one), and the memory binding (mask, policy). -/
structure ThreadState where
  cpubind : Option Bitmap
  membind : Option (Bitmap × MemBindPolicy)
deriving DecidableEq, Repr

/-- The `Cleanup` guard: thread id and the captured prior CPU mask. -/
structure Cleanup where
  tid : Nat
  prior_state : Option Bitmap
deriving DecidableEq, Repr

/-- Outcome of `bind_core`: a panic (poisoned lock `expect`), an `Err`
return, or `Ok(Cleanup)`; each arm carries the resulting thread state. -/
inductive BindResult where
  | fatal (msg : String) (st : ThreadState)
  | err (msg : String) (st : ThreadState)
  | ok (c : Cleanup) (st : ThreadState)
deriving DecidableEq, Repr

/-- Outcome of `Cleanup::drop`: a panic (poisoned lock `expect`) or
normal completion; carries the resulting thread state and the guard
after its `prior_state.take()`. -/
inductive DropResult where
  | fatal (msg : String) (c : Cleanup) (st : ThreadState)
  | done (st : ThreadState) (c : Cleanup)
deriving DecidableEq, Repr

/-- Outcome of an operation that first acquires the topology lock with
`.expect(..)`: panic on a poisoned lock, otherwise a value. -/
inductive RunOutcome (α : Type) where
  | fatal (msg : String)
  | ok (a : α)
deriving DecidableEq, Repr

/-- `get_core_by_index`: the detected core list when `objects_with_type`
succeeded (`none` models its failure); returns the core's
`allowed_cpuset` slot or the out-of-range / query-failure errors. -/
def get_core_by_index (cores : Option (List (Option Bitmap))) (index : CoreIndex) :
    Except String (Option Bitmap) :=
  let idx := index.val
  match cores with
  | some all_cores =>
    if h : idx < all_cores.length then Except.ok (all_cores.get ⟨idx, h⟩)
    else
      let n := all_cores.length
      Except.error s!"idx ({idx}) out of range for {n} cores"
  | none => Except.error s!"failed to get core by index {idx}"

/-- `bind_core(core_index)`. `poisoned` is the topology-lock state;
`cpuFail` / `memFail` say whether the platform rejects the
`set_cpubind_for_thread` / `set_membind` calls; `tid` is the calling
thread; `st` its binding state on entry. -/
def bind_core (cores : Option (List (Option Bitmap))) (poisoned cpuFail memFail : Bool)
    (tid : Nat) (st : ThreadState) (core_index : CoreIndex) : BindResult :=
  if poisoned then BindResult.fatal "poisoned lock" st
  else
    let idx := core_index.val
    match get_core_by_index cores core_index with
    | Except.error err => BindResult.err s!"failed to get core at index {idx}: {err}" st
    | Except.ok coreCpuset =>
      match coreCpuset with
      | none => BindResult.err s!"no allowed cpuset for core at index {idx}" st
      | some cpuset =>
        -- Get only one logical processor (SMT/hyper-threading).
        let bind_to := singlify cpuset
        -- Thread binding before explicit set.
        let before := st.cpubind
        -- Set the binding; on error only a warning is logged.
        let st1 := if cpuFail then st else { st with cpubind := some bind_to }
        -- `let _ = set_membind(..)`: result discarded entirely.
        let st2 := if memFail then st1 else
          { st1 with membind := some (bind_to, MemBindPolicy.bind) }
        BindResult.ok { tid := tid, prior_state := before } st2

/-- `Cleanup::drop`: `prior_state.take()`, then (only when a prior state
was present) lock the topology — `.expect("poisded lock")`, the typo is
the source's — restore the CPU binding, then set the memory binding to
the same prior mask with `MEMBIND_DEFAULT`; both results discarded. -/
def Cleanup.drop (poisoned cpuFail memFail : Bool) (c : Cleanup) (st : ThreadState) :
    DropResult :=
  match c.prior_state with
  | none => DropResult.done st { c with prior_state := none }
  | some prior =>
    if poisoned then DropResult.fatal "poisded lock" { c with prior_state := none } st
    else
      let st1 := if cpuFail then st else { st with cpubind := some prior }
      let st2 := if memFail then st1 else
        { st1 with membind := some (prior, MemBindPolicy.default) }
      DropResult.done st2 { c with prior_state := none }

/-- `core_groups(cores_per_unit)` with the detected core count made
explicit: `group_count = core_count / cores_per_unit` groups, emitted
for `i` in `(0..group_count).rev()`, group `i` holding the contiguous
indices `i * group_size + j` for `j` in `0..group_size`. -/
def core_groups (cores_per_unit core_count : Nat) : List (List CoreIndex) :=
  let group_count := core_count / cores_per_unit
  let group_size := cores_per_unit
  (List.range group_count).reverse.map (fun i =>
    (List.range group_size).map (fun j => CoreIndex.mk (i * group_size + j)))

/-- `core_groups` behind the topology lock: the Rust function first does
`TOPOLOGY.lock().expect("poisoned lock")`, panicking when poisoned. -/
def core_groupsRun (poisoned : Bool) (cores_per_unit core_count : Nat) :
    RunOutcome (List (List CoreIndex)) :=
  if poisoned then RunOutcome.fatal "poisoned lock"
  else RunOutcome.ok (core_groups cores_per_unit core_count)

/-- `checkout_core_group`: scan the per-group mutexes in construction
order (`held` lists which are currently locked), `try_lock` each in
turn; on the first free one return its index and the updated lock
state, else `None`. -/
def checkout_core_group : List Bool → Option (Nat × List Bool)
  | [] => none
  | h :: rest =>
    if h then (checkout_core_group rest).map (fun p => (p.1 + 1, true :: p.2))
    else some (0, true :: rest)

example : core_groups 3 8 =
    [[⟨3⟩, ⟨4⟩, ⟨5⟩], [⟨0⟩, ⟨1⟩, ⟨2⟩]] := by decide

example : checkout_core_group [true, false, false] = some (1, [true, true, false]) := by
  decide

example : checkout_core_group [true, true] = none := by decide

/-- State of the `CORE_GROUPS` pool: which per-group mutexes are locked,
and the indices of groups whose checkout guards are still outstanding. -/
structure PoolState where
  held : List Bool
  outstanding : List Nat
deriving DecidableEq, Repr

/-- Atomic pool events, as serialized by the per-group mutexes: a
successful checkout (locks the first free group), a failed checkout
(no state change), and a guard going out of scope (unlocks its group). -/
inductive PoolStep : PoolState → PoolState → Prop
  | checkout (s : PoolState) (i : Nat) (held2 : List Bool) :
      checkout_core_group s.held = some (i, held2) →
      PoolStep s ⟨held2, i :: s.outstanding⟩
  | checkoutNone (s : PoolState) :
      checkout_core_group s.held = none →
      PoolStep s s
  | release (s : PoolState) (i : Nat) :
      i ∈ s.outstanding →
      PoolStep s ⟨s.held.set i false, s.outstanding.erase i⟩

/-- Pool states reachable from the freshly constructed pool of `n`
unlocked groups by any interleaving of atomic pool events. -/
inductive PoolReachable (n : Nat) : PoolState → Prop
  | init : PoolReachable n ⟨List.replicate n false, []⟩
  | step {s t : PoolState} : PoolReachable n s → PoolStep s t → PoolReachable n t

/-- Invariant tying outstanding checkouts to locked groups. -/
def PoolInv (n : Nat) (s : PoolState) : Prop :=
  s.held.length = n ∧ s.outstanding.Nodup ∧
    ∀ i ∈ s.outstanding, ∃ hi : i < s.held.length, s.held[i] = true

theorem checkout_eq_some (held : List Bool) (i : Nat) (held2 : List Bool)
    (h : checkout_core_group held = some (i, held2)) :
    ∃ hi : i < held.length, held[i] = false ∧
      (∀ j (hj : j < held.length), j < i → held[j] = true) ∧
      held2 = held.set i true := by
  induction held generalizing i held2 with
  | nil => simp [checkout_core_group] at h
  | cons b rest ih =>
    cases b with
    | false =>
      simp only [checkout_core_group, Bool.false_eq_true, if_false, Option.some.injEq,
        Prod.mk.injEq] at h
      obtain ⟨rfl, rfl⟩ := h
      exact ⟨by simp, by simp, by omega, by simp⟩
    | true =>
      simp only [checkout_core_group, if_true, Option.map_eq_some'] at h
      obtain ⟨⟨i0, r0⟩, hrec, heq⟩ := h
      simp only [Prod.mk.injEq] at heq
      obtain ⟨rfl, rfl⟩ := heq
      obtain ⟨hi0, hget, hpre, hset⟩ := ih i0 r0 hrec
      refine ⟨by simpa using hi0, by simpa using hget, ?_, by simp [hset, List.set]⟩
      intro j hj hji
      match j with
      | 0 => simp
      | j + 1 =>
        simp only [List.getElem_cons_succ]
        exact hpre j (by simpa using hj) (by omega)

theorem checkout_eq_none (held : List Bool) :
    checkout_core_group held = none ↔ ∀ b ∈ held, b = true := by
  induction held with
  | nil => simp [checkout_core_group]
  | cons b rest ih =>
    cases b with
    | false => simp [checkout_core_group]
    | true => simp [checkout_core_group, ih]

theorem poolInv_step {n : Nat} {s t : PoolState} (hstep : PoolStep s t)
    (ih : PoolInv n s) : PoolInv n t := by
  obtain ⟨hlen, hnodup, hmem⟩ := ih
  cases hstep with
  | checkout i held2 hco =>
    obtain ⟨hi, hfree, _, hset⟩ := checkout_eq_some _ _ _ hco
    have hne : i ∉ s.outstanding := by
      intro hin
      obtain ⟨hi2, htrue⟩ := hmem i hin
      rw [hfree] at htrue
      exact Bool.false_ne_true htrue
    refine ⟨by simpa [hset] using hlen, List.nodup_cons.mpr ⟨hne, hnodup⟩, ?_⟩
    intro j hj
    rcases List.mem_cons.mp hj with hji | hjo
    · subst hji
      exact ⟨by simpa [hset] using hi, by simp [hset, List.getElem_set_self]⟩
    · obtain ⟨hj2, htrue⟩ := hmem j hjo
      have hjne : i ≠ j := fun hc => by
        subst hc
        exact absurd (hfree.symm.trans htrue) (by decide)
      exact ⟨by simpa [hset] using hj2,
        by simpa [hset, List.getElem_set_ne hjne] using htrue⟩
  | checkoutNone _ => exact ⟨hlen, hnodup, hmem⟩
  | release i hin =>
    refine ⟨by simpa using hlen, hnodup.erase i, ?_⟩
    intro j hj
    have hjne : j ≠ i := ((hnodup.mem_erase_iff).mp hj).1
    have hjo : j ∈ s.outstanding := ((hnodup.mem_erase_iff).mp hj).2
    obtain ⟨hj2, htrue⟩ := hmem j hjo
    exact ⟨by simpa using hj2,
      by simpa [List.getElem_set_ne (Ne.symm hjne)] using htrue⟩

theorem poolInv_of_reachable {n : Nat} {s : PoolState} (h : PoolReachable n s) :
    PoolInv n s := by
  induction h with
  | init => exact ⟨by simp, List.nodup_nil, by simp⟩
  | step _ hstep ih => exact poolInv_step hstep ih

/-- Claim C2: for every `total_cores` and every `group_size ≥ 1`,
`core_groups` produces exactly `total_cores / group_size` groups; the
group at emitted position `k` is group `i = group_count - 1 - k`,
holding exactly the `group_size` contiguous indices
`[i * group_size, i * group_size + group_size)` — so groups come out in
descending `i` order; every index of a remainder core
(`≥ group_count * group_size`) appears in no group; and
`core_groups(total_cores = 8, group_size = 3)` is exactly
`[[3,4,5], [0,1,2]]`, leaving cores 6 and 7 unassigned. -/
theorem core_groups_partition (total gs : Nat) (h : 1 ≤ gs) :
    (core_groups gs total).length = total / gs ∧
    (∀ k (hk : k < (core_groups gs total).length),
      (core_groups gs total).get ⟨k, hk⟩ =
        (List.range gs).map (fun j => CoreIndex.mk ((total / gs - 1 - k) * gs + j))) ∧
    (∀ c : CoreIndex, total / gs * gs ≤ c.val →
      ∀ g ∈ core_groups gs total, c ∉ g) ∧
    core_groups 3 8 = [[⟨3⟩, ⟨4⟩, ⟨5⟩], [⟨0⟩, ⟨1⟩, ⟨2⟩]] := by
  refine ⟨by simp [core_groups], ?_, ?_, by decide⟩
  · intro k hk
    have hk2 : k < total / gs := by simpa [core_groups] using hk
    simp only [core_groups, List.get_eq_getElem, List.getElem_map,
      List.getElem_reverse, List.getElem_range, List.length_reverse,
      List.length_range]
  · intro c hc g hg hcg
    simp only [core_groups, List.mem_map, List.mem_reverse, List.mem_range] at hg
    obtain ⟨i, hi, rfl⟩ := hg
    simp only [List.mem_map, List.mem_range] at hcg
    obtain ⟨j, hj, hcj⟩ := hcg
    have hval : c.val = i * gs + j := by rw [← hcj]
    have hmul : (i + 1) * gs ≤ total / gs * gs :=
      Nat.mul_le_mul_right gs hi
    have : i * gs + j < total / gs * gs := by
      calc i * gs + j < i * gs + gs := by omega
        _ = (i + 1) * gs := by ring
        _ ≤ total / gs * gs := hmul
    omega

/-- Witness for C2 at `total_cores = 8`, `group_size = 3`. -/
theorem core_groups_partition_witness :
    (core_groups 3 8).length = 8 / 3 ∧
    core_groups 3 8 = [[⟨3⟩, ⟨4⟩, ⟨5⟩], [⟨0⟩, ⟨1⟩, ⟨2⟩]] := by
  have h := core_groups_partition 8 3 (by decide)
  exact ⟨h.1, h.2.2.2⟩

/-- Claim C7: when `total_cores < group_size`, `core_groups` produces
zero groups; on the resulting empty pool every checkout returns `none`;
in particular `core_groups(total_cores = 2, group_size = 3) = []`. -/
theorem core_groups_empty_pool (total gs : Nat) (h : total < gs) :
    core_groups gs total = [] ∧
    (∀ held : List Bool, held.length = (core_groups gs total).length →
      checkout_core_group held = none) ∧
    core_groups 3 2 = [] := by
  have hz : total / gs = 0 := Nat.div_eq_of_lt h
  refine ⟨by simp [core_groups, hz], ?_, by decide⟩
  intro held hlen
  have : held = [] := by
    apply List.eq_nil_of_length_eq_zero
    simpa [core_groups, hz] using hlen
  subst this
  rfl

/-- Witness for C7 at `total_cores = 2`, `group_size = 3`. -/
theorem core_groups_empty_pool_witness :
    core_groups 3 2 = [] ∧ checkout_core_group [] = none := by
  have h := core_groups_empty_pool 2 3 (by decide)
  exact ⟨h.1, h.2.1 [] (by simp [h.1])⟩

/-- Claim C3: `checkout_core_group` scans the groups in their fixed
construction order exactly once, attempting a non-blocking `try_lock`
on each in turn: a successful checkout returns the first group whose
lock is free (every earlier group's lock is held, and the returned
group's lock becomes held); and it returns `none` exactly when every
group's lock is held — a single pass, with no blocking or retrying. -/
theorem checkout_first_free (held : List Bool) :
    (∀ i held2, checkout_core_group held = some (i, held2) →
      ∃ hi : i < held.length, held[i] = false ∧
        (∀ j (hj : j < held.length), j < i → held[j] = true) ∧
        held2 = held.set i true) ∧
    (checkout_core_group held = none ↔ ∀ b ∈ held, b = true) :=
  ⟨fun i held2 h => checkout_eq_some held i held2 h, checkout_eq_none held⟩

/-- Witness for C3 on the lock state `[held, free, free]`: checkout
takes group 1, the first free one, and locks it. -/
theorem checkout_first_free_witness :
    checkout_core_group [true, false, false] = some (1, [true, true, false]) ∧
    [true, true, false] = [true, false, false].set 1 true ∧
    checkout_core_group [true, true] = none := by
  obtain ⟨_, _, _, hset⟩ :=
    (checkout_first_free [true, false, false]).1 1 [true, true, false] (by decide)
  exact ⟨by decide, hset, (checkout_first_free [true, true]).2.mpr (by decide)⟩

/-- Claim C8: in every pool state reachable by any interleaving of
atomic checkout / release events, the outstanding checkout handles name
pairwise distinct groups (two concurrent checkouts never return the
same group), and at most `group_count` checkouts are outstanding. -/
theorem checkout_mutual_exclusion (n : Nat) (s : PoolState)
    (h : PoolReachable n s) :
    s.outstanding.Nodup ∧ s.outstanding.length ≤ n := by
  obtain ⟨hlen, hnodup, hmem⟩ := poolInv_of_reachable h
  refine ⟨hnodup, ?_⟩
  have hsub : s.outstanding.toFinset ⊆ Finset.range n := by
    intro x hx
    rw [List.mem_toFinset] at hx
    obtain ⟨hi, _⟩ := hmem x hx
    rw [Finset.mem_range]
    omega
  have hcard := Finset.card_le_card hsub
  rw [Finset.card_range] at hcard
  rwa [List.toFinset_card_of_nodup hnodup] at hcard

/-- Witness for C8: a two-group pool after two successful checkouts;
the two outstanding handles name distinct groups and number ≤ 2. -/
theorem checkout_mutual_exclusion_witness :
    (PoolState.mk [true, true] [1, 0]).outstanding.Nodup ∧
    (PoolState.mk [true, true] [1, 0]).outstanding.length ≤ 2 := by
  have h0 : PoolReachable 2 ⟨List.replicate 2 false, []⟩ := PoolReachable.init
  have h1 : PoolReachable 2 ⟨[true, false], [0]⟩ :=
    PoolReachable.step h0 (PoolStep.checkout _ 0 [true, false] (by decide))
  have h2 : PoolReachable 2 ⟨[true, true], [1, 0]⟩ :=
    PoolReachable.step h1 (PoolStep.checkout _ 1 [true, true] (by decide))
  exact checkout_mutual_exclusion 2 _ h2

/-- Claim C9: every operation that acquires the shared topology lock —
pool construction (`core_groups`), `bind_core`, and guard release
(`Cleanup::drop`, when it has a prior state to restore and hence locks)
— surfaces a poisoned lock as a fatal panic (`expect`), with the thread
state untouched: propagated without retry, never silently bypassed. -/
theorem lock_poisoned_fatal (cores : Option (List (Option Bitmap)))
    (cpuFail memFail : Bool) (tid : Nat) (st : ThreadState) (ci : CoreIndex)
    (c : Cleanup) (prior : Bitmap) (hc : c.prior_state = some prior)
    (cpu cc : Nat) :
    bind_core cores true cpuFail memFail tid st ci =
      BindResult.fatal "poisoned lock" st ∧
    Cleanup.drop true cpuFail memFail c st =
      DropResult.fatal "poisded lock" { c with prior_state := none } st ∧
    core_groupsRun true cpu cc = RunOutcome.fatal "poisoned lock" := by
  refine ⟨rfl, ?_, rfl⟩
  simp [Cleanup.drop, hc]

/-- Witness for C9 at concrete inputs. -/
theorem lock_poisoned_fatal_witness :
    bind_core none true false false 0 ⟨none, none⟩ ⟨0⟩ =
      BindResult.fatal "poisoned lock" ⟨none, none⟩ ∧
    Cleanup.drop true false false ⟨0, some [1]⟩ ⟨none, none⟩ =
      DropResult.fatal "poisded lock" ⟨0, none⟩ ⟨none, none⟩ ∧
    core_groupsRun true 3 8 = RunOutcome.fatal "poisoned lock" :=
  lock_poisoned_fatal none false false 0 ⟨none, none⟩ ⟨0⟩ ⟨0, some [1]⟩ [1] rfl 3 8

theorem bind_core_ok (l : List (Option Bitmap)) (cpuset : Bitmap)
    (cpuFail memFail : Bool) (tid : Nat) (st : ThreadState) (ci : CoreIndex)
    (hlt : ci.val < l.length) (hcs : l[ci.val] = some cpuset) :
    bind_core (some l) false cpuFail memFail tid st ci =
      BindResult.ok { tid := tid, prior_state := st.cpubind }
        (let st1 := if cpuFail then st else { st with cpubind := some (singlify cpuset) }
         if memFail then st1 else
           { st1 with membind := some (singlify cpuset, MemBindPolicy.bind) }) := by
  simp [bind_core, get_core_by_index, hlt, List.get_eq_getElem, hcs]

/-- Claim C4: for an in-range core with an allowed cpuset, `bind_core`
returns `Ok` with the same guard whatever the platform does: a rejected
`set_cpubind_for_thread` (`cpuFail`) does not fail the call — a valid
guard is still returned — and a rejected `set_membind` (`memFail`) is
suppressed entirely, never propagated and never affecting the guard. -/
theorem bind_failures_tolerated (l : List (Option Bitmap)) (cpuset : Bitmap)
    (cpuFail memFail : Bool) (tid : Nat) (st : ThreadState) (ci : CoreIndex)
    (hlt : ci.val < l.length) (hcs : l[ci.val] = some cpuset) :
    ∃ st2, bind_core (some l) false cpuFail memFail tid st ci =
      BindResult.ok { tid := tid, prior_state := st.cpubind } st2 :=
  ⟨_, bind_core_ok l cpuset cpuFail memFail tid st ci hlt hcs⟩

/-- Witness for C4: both platform calls rejected, guard still returned. -/
theorem bind_failures_tolerated_witness :
    ∃ st2, bind_core (some [some [2, 3]]) false true true 5 ⟨some [7], none⟩ ⟨0⟩ =
      BindResult.ok { tid := 5, prior_state := some [7] } st2 :=
  bind_failures_tolerated [some [2, 3]] [2, 3] true true 5 ⟨some [7], none⟩ ⟨0⟩
    (by decide) (by decide)

/-- Claim C5: `bind_core` at an index `≥` the detected core count
returns the out-of-range error, with no guard and the calling thread's
binding state unchanged (no affinity state captured, nothing mutated). -/
theorem bind_out_of_range (l : List (Option Bitmap)) (cpuFail memFail : Bool)
    (tid : Nat) (st : ThreadState) (idx n : Nat) (msg : String)
    (h : l.length <= idx) (hn : n = l.length)
    (hmsg : msg = s!"idx ({idx}) out of range for {n} cores") :
    bind_core (some l) false cpuFail memFail tid st ⟨idx⟩ =
      BindResult.err s!"failed to get core at index {idx}: {msg}" st := by
  subst hn
  subst hmsg
  simp [bind_core, get_core_by_index, Nat.not_lt.mpr h]

/-- Witness for C5: index 0 on a machine with 0 detected cores. -/
theorem bind_out_of_range_witness :
    bind_core (some []) false false false 0 ⟨none, none⟩ ⟨0⟩ =
      BindResult.err "failed to get core at index 0: idx (0) out of range for 0 cores"
        ⟨none, none⟩ := by
  have h := bind_out_of_range [] false false 0 ⟨none, none⟩ 0 0
    "idx (0) out of range for 0 cores" (by decide) rfl (by decide)
  exact h.trans (by decide)

/-- Claim C10: for an in-range core whose allowed processor mask is
absent, `bind_core` returns an error — a failure mode distinct from the
out-of-range one — with no guard, no captured affinity state, and the
calling thread's binding state unchanged. -/
theorem bind_no_allowed_cpuset (l : List (Option Bitmap)) (cpuFail memFail : Bool)
    (tid : Nat) (st : ThreadState) (idx : Nat) (h : idx < l.length)
    (hnone : l[idx] = none) :
    bind_core (some l) false cpuFail memFail tid st ⟨idx⟩ =
      BindResult.err s!"no allowed cpuset for core at index {idx}" st := by
  simp [bind_core, get_core_by_index, h, List.get_eq_getElem, hnone]

/-- Witness for C10: one detected core with no allowed cpuset; the
error differs from the out-of-range message for the same index. -/
theorem bind_no_allowed_cpuset_witness :
    bind_core (some [none]) false false false 0 ⟨none, none⟩ ⟨0⟩ =
      BindResult.err "no allowed cpuset for core at index 0" ⟨none, none⟩ ∧
    ("no allowed cpuset for core at index 0" : String) ≠
      "failed to get core at index 0: idx (0) out of range for 1 cores" := by
  refine ⟨?_, by decide⟩
  simpa using bind_no_allowed_cpuset [none] false false 0 ⟨none, none⟩ 0
    (by decide) rfl

/-- Counterexample to C6: two bind calls whose threads differ only in
their pre-bind memory-binding mask produce identical guards (and even
identical post-states), so the captured `AffinityState` is not a
snapshot of the memory-binding mask — only the CPU mask is captured. -/
theorem affinity_snapshot_counterexample :
    (some ([5], MemBindPolicy.bind) : Option (Bitmap × MemBindPolicy)) ≠
      some ([9], MemBindPolicy.bind) ∧
    bind_core (some [some [2, 3]]) false false false 7
        ⟨some [0, 1], some ([5], MemBindPolicy.bind)⟩ ⟨0⟩ =
      BindResult.ok ⟨7, some [0, 1]⟩ ⟨some [2], some ([2], MemBindPolicy.bind)⟩ ∧
    bind_core (some [some [2, 3]]) false false false 7
        ⟨some [0, 1], some ([9], MemBindPolicy.bind)⟩ ⟨0⟩ =
      BindResult.ok ⟨7, some [0, 1]⟩ ⟨some [2], some ([2], MemBindPolicy.bind)⟩ := by
  decide

/-- Claim C6 as amended: the `AffinityState` captured into the guard is
a snapshot of the calling thread's CPU-binding mask only — not of its
memory-binding mask — taken before any mutation of the thread's
binding, and it is consumed exactly once: any completed release returns
the guard with its state taken, and releasing that guard again is a
no-op. -/
theorem affinity_snapshot_amended (l : List (Option Bitmap)) (cpuset : Bitmap)
    (cpuFail memFail : Bool) (tid : Nat) (st : ThreadState) (ci : CoreIndex)
    (hlt : ci.val < l.length) (hcs : l[ci.val] = some cpuset) :
    (∃ st2, bind_core (some l) false cpuFail memFail tid st ci =
        BindResult.ok { tid := tid, prior_state := st.cpubind } st2) ∧
    (∀ (p q r : Bool) (st3 st4 : ThreadState) (c2 : Cleanup),
      Cleanup.drop p q r { tid := tid, prior_state := st.cpubind } st3 =
        DropResult.done st4 c2 →
      c2 = { tid := tid, prior_state := none } ∧
      ∀ (p2 q2 r2 : Bool), Cleanup.drop p2 q2 r2 c2 st4 = DropResult.done st4 c2) := by
  refine ⟨⟨_, bind_core_ok l cpuset cpuFail memFail tid st ci hlt hcs⟩, ?_⟩
  intro p q r st3 st4 c2 hdone
  cases hcb : st.cpubind with
  | none =>
    rw [hcb] at hdone
    simp only [Cleanup.drop] at hdone
    obtain ⟨rfl, rfl⟩ := (DropResult.done.injEq .. ▸ hdone : st3 = st4 ∧ _ = c2)
    exact ⟨rfl, fun p2 q2 r2 => rfl⟩
  | some m =>
    rw [hcb] at hdone
    cases p with
    | true => simp [Cleanup.drop] at hdone
    | false =>
      simp only [Cleanup.drop, Bool.false_eq_true, if_false] at hdone
      obtain ⟨rfl, rfl⟩ := (DropResult.done.injEq .. ▸ hdone : _ = st4 ∧ _ = c2)
      exact ⟨rfl, fun p2 q2 r2 => rfl⟩

/-- Witness for C6 (amended) at concrete inputs. -/
theorem affinity_snapshot_amended_witness :
    (∃ st2, bind_core (some [some [2, 3]]) false false false 7
        ⟨some [0, 1], none⟩ ⟨0⟩ =
      BindResult.ok { tid := 7, prior_state := some [0, 1] } st2) ∧
    Cleanup.drop false false false ⟨7, none⟩
        ⟨some [0, 1], some ([0, 1], MemBindPolicy.default)⟩ =
      DropResult.done ⟨some [0, 1], some ([0, 1], MemBindPolicy.default)⟩
        ⟨7, none⟩ := by
  have h := affinity_snapshot_amended [some [2, 3]] [2, 3] false false 7
    ⟨some [0, 1], none⟩ ⟨0⟩ (by decide) (by decide)
  refine ⟨h.1, ?_⟩
  have h2 := h.2 false false false ⟨some [2], some ([2], MemBindPolicy.bind)⟩
    ⟨some [0, 1], some ([0, 1], MemBindPolicy.default)⟩ ⟨7, none⟩ (by decide)
  exact h2.2 false false false

/-- Counterexample to C1: a successful `bind_core` immediately followed
by a fully successful guard release, yet the thread's memory binding
after release — `(prior CPU mask, MEMBIND_DEFAULT)` — differs from its
memory binding before the bind (`([0,1], MEMBIND_BIND)` here); only the
CPU affinity round-trips. -/
theorem bind_roundtrip_counterexample :
    bind_core (some [some [2, 3]]) false false false 7
        ⟨some [0, 1], some ([0, 1], MemBindPolicy.bind)⟩ ⟨0⟩ =
      BindResult.ok ⟨7, some [0, 1]⟩ ⟨some [2], some ([2], MemBindPolicy.bind)⟩ ∧
    Cleanup.drop false false false ⟨7, some [0, 1]⟩
        ⟨some [2], some ([2], MemBindPolicy.bind)⟩ =
      DropResult.done ⟨some [0, 1], some ([0, 1], MemBindPolicy.default)⟩
        ⟨7, none⟩ ∧
    (⟨some [0, 1], some ([0, 1], MemBindPolicy.default)⟩ : ThreadState).cpubind =
      (⟨some [0, 1], some ([0, 1], MemBindPolicy.bind)⟩ : ThreadState).cpubind ∧
    (⟨some [0, 1], some ([0, 1], MemBindPolicy.default)⟩ : ThreadState).membind ≠
      (⟨some [0, 1], some ([0, 1], MemBindPolicy.bind)⟩ : ThreadState).membind := by
  decide

/-- Claim C1 as amended: for a successful `bind_core` followed
immediately by release of the returned guard with no intervening
rebind, when the thread had an observable CPU binding before the bind
and the platform accepts the restore calls, the release — performed on
scope exit as CPU binding then memory binding — restores the thread's
CPU affinity to exactly its pre-bind value; the memory binding after
release is the captured prior CPU mask with the default policy, not the
pre-bind memory binding. -/
theorem bind_roundtrip_amended (l : List (Option Bitmap)) (cpuset m : Bitmap)
    (cpuFail memFail : Bool) (tid : Nat) (st : ThreadState) (ci : CoreIndex)
    (hlt : ci.val < l.length) (hcs : l[ci.val] = some cpuset)
    (hcpu : st.cpubind = some m) :
    ∃ st1 st2, bind_core (some l) false cpuFail memFail tid st ci =
        BindResult.ok { tid := tid, prior_state := st.cpubind } st1 ∧
      Cleanup.drop false false false { tid := tid, prior_state := st.cpubind } st1 =
        DropResult.done st2 { tid := tid, prior_state := none } ∧
      st2.cpubind = st.cpubind ∧
      st2.membind = some (m, MemBindPolicy.default) := by
  refine ⟨_, ⟨some m, some (m, MemBindPolicy.default)⟩,
    bind_core_ok l cpuset cpuFail memFail tid st ci hlt hcs, ?_, by simp [hcpu], rfl⟩
  simp [Cleanup.drop, hcpu]

/-- Witness for C1 (amended) at concrete inputs. -/
theorem bind_roundtrip_amended_witness :
    ∃ st1 st2, bind_core (some [some [2, 3]]) false false false 7
        ⟨some [0, 1], some ([0, 1], MemBindPolicy.bind)⟩ ⟨0⟩ =
        BindResult.ok { tid := 7, prior_state := some [0, 1] } st1 ∧
      Cleanup.drop false false false { tid := 7, prior_state := some [0, 1] } st1 =
        DropResult.done st2 { tid := 7, prior_state := none } ∧
      st2.cpubind = some [0, 1] ∧
      st2.membind = some ([0, 1], MemBindPolicy.default) :=
  bind_roundtrip_amended [some [2, 3]] [2, 3] [0, 1] false false 7
    ⟨some [0, 1], some ([0, 1], MemBindPolicy.bind)⟩ ⟨0⟩ (by decide) (by decide) rfl
